import Mathlib

/-!
Shallow embedding of the contract-ABI core of the `pons` repository
(`pons/_contract_abi.py`): signatures, events, errors, methods, the
`ContractABI` aggregate, selector/topic derivation and revert-data
resolution.

Bytes are modelled as `List Nat` (each entry a byte value).  The external
per-type codec and the 256-bit hash function live in `_abi_types.py`,
outside the verified core; they are modelled as an abstract `Codec`
record that the embedded definitions take as a parameter, exactly in the
places where the source calls into the codec module.
-/

namespace Pons

/-- A decoded application value produced by the external codec. -/
inductive Value where
  | nat (n : Nat)
  | str (s : String)
  | bytes (bs : List Nat)
deriving DecidableEq, Repr

/-- Opaque value-type descriptor (the external ``Type``): the core only
reads its canonical name string. -/
structure AbiType where
  canonicalForm : String
deriving DecidableEq, Repr

/-- `abi.uint(256)`: the type of the built-in Panic error's field. -/
def uint256 : AbiType := ⟨"uint256"⟩

/-- `abi.string`: the type of the built-in legacy Error error's field. -/
def stringType : AbiType := ⟨"string"⟩

/-- `abi.address`. -/
def addressType : AbiType := ⟨"address"⟩

/-- Failure kinds raised by the embedded operations, mirroring the Python
exception classes (`ValueError`, `UnknownError`, codec decode failures,
`KeyError`, `IndexError`). -/
inductive AbiFailure where
  | valueError (msg : String)
  | unknownError (selector : List Nat)
  | decodeFailure (msg : String)
  | keyError (key : String)
  | indexError
deriving DecidableEq, Repr

/-- Result type for fallible embedded operations. -/
inductive Res (α : Type) where
  | ok (a : α)
  | err (e : AbiFailure)
deriving DecidableEq, Repr

def Res.bind {α β : Type} : Res α → (α → Res β) → Res β
  | .ok a, f => f a
  | .err e, _ => .err e

def Res.isOk {α : Type} : Res α → Bool
  | .ok _ => true
  | .err _ => false

/-- The external codec collaborator (`pons/_abi_types.py`): the keccak
hash, the tuple decoder `decode_args`, and the per-type topic
encoder/decoder.  Abstract: the core is verified for every codec. -/
structure Codec where
  kec : List Nat → List Nat
  decodeArgs : List AbiType → List Nat → Sum String (List Value)
  encodeToTopic : AbiType → Value → List Nat
  decodeFromTopic : AbiType → List Nat → Value

/-- Propagate a codec decode failure (`ABIDecodingError`) into the
embedding's failure type. -/
def liftDecode {α : Type} (r : Sum String (List Value))
    (f : List Value → Res α) : Res α :=
  match r with
  | .inl msg => .err (.decodeFailure msg)
  | .inr vs => f vs

/-- Byte sequence of a string (`str.encode()`); ASCII code points. -/
def strBytes (s : String) : List Nat := s.toList.map Char.toNat

/-- The Python hard keywords recognised by `keyword.iskeyword`. -/
def pythonKeywords : List String :=
  ["False", "None", "True", "and", "as", "assert", "async", "await",
   "break", "class", "continue", "def", "del", "elif", "else", "except",
   "finally", "for", "from", "global", "if", "import", "in", "is",
   "lambda", "nonlocal", "not", "or", "pass", "raise", "return", "try",
   "while", "with", "yield"]

/-- `make_name_safe`: escape parameter names that collide with keywords. -/
def makeNameSafe (name : String) : String :=
  if name ∈ pythonKeywords then name ++ "_" else name

/-- Python `dict` assignment `d[k] = v`: replace in place when the key is
present, append otherwise (insertion order preserved). -/
def dictInsert {α : Type} [DecidableEq α] {β : Type}
    (d : List (α × β)) (k : α) (v : β) : List (α × β) :=
  if d.any (fun p => p.1 = k) then
    d.map (fun p => if p.1 = k then (k, v) else p)
  else d ++ [(k, v)]

/-- Python dict built from a sequence of key-value pairs (as a dict
comprehension does): later pairs overwrite the value of an existing key
while keeping its original position. -/
def dictOfList {α : Type} [DecidableEq α] {β : Type}
    (l : List (α × β)) : List (α × β) :=
  l.foldl (fun d p => dictInsert d p.1 p.2) []

/-- Python `d[k]` / `k in d` on the dict model: find the (unique) pair
with the given key. -/
def dictLookup {α : Type} [DecidableEq α] {β : Type}
    (d : List (α × β)) (k : α) : Option β :=
  match d with
  | [] => none
  | p :: t => if p.1 = k then some p.2 else dictLookup t k

/-- Parameter declaration of a `Signature`: a named mapping or a bare
positional sequence of types. -/
inductive Params where
  | named (ps : List (String × AbiType))
  | positional (ts : List AbiType)
deriving DecidableEq, Repr

/-- `Signature`: generalized signature of inputs or outputs.  Stores the
parameter list; named parameters have been passed through
`make_name_safe` by the constructor. -/
structure Signature where
  params : Params
deriving DecidableEq, Repr

/-- `Signature.__init__`: keyword-escape the names of named parameters;
positional parameters keep only their types. -/
def Signature.make (parameters : Params) : Signature :=
  match parameters with
  | .named ps => ⟨.named (ps.map (fun p => (makeNameSafe p.1, p.2)))⟩
  | .positional ts => ⟨.positional ts⟩

/-- `self._types`: the ordered type list of a signature. -/
def Signature.types (s : Signature) : List AbiType :=
  match s.params with
  | .named ps => ps.map Prod.snd
  | .positional ts => ts

/-- `self._signature.parameters`: the ordered parameter names (positional
parameters are named `_0`, `_1`, ...). -/
def Signature.paramNames (s : Signature) : List String :=
  match s.params with
  | .named ps => ps.map Prod.fst
  | .positional ts => (List.range ts.length).map (fun i => "_" ++ toString i)

/-- `Signature.canonical_form`. -/
def Signature.canonicalForm (s : Signature) : String :=
  "(" ++ String.intercalate "," (s.types.map AbiType.canonicalForm) ++ ")"

/-- `Signature.decode_into_tuple`: defers to the codec's `decode_args`. -/
def Signature.decodeIntoTuple (codec : Codec) (s : Signature)
    (valueBytes : List Nat) : Res (List Value) :=
  liftDecode (codec.decodeArgs s.types valueBytes) .ok

/-- `Signature.decode_into_dict`: zip the decoded tuple with the
parameter names. -/
def Signature.decodeIntoDict (codec : Codec) (s : Signature)
    (valueBytes : List Nat) : Res (List (String × Value)) :=
  (s.decodeIntoTuple codec valueBytes).bind
    (fun decoded => .ok (s.paramNames.zip decoded))

/-- A custom contract error (`Error`). -/
structure Error where
  name : String
  fields : Signature
deriving DecidableEq, Repr

/-- `Error.__init__`: fields are always a named mapping. -/
def Error.make (name : String) (fields : List (String × AbiType)) : Error :=
  ⟨name, Signature.make (.named fields)⟩

/-- `Error.selector`: first 4 bytes of the hash of name + canonical
signature. -/
def Error.selector (codec : Codec) (e : Error) : List Nat :=
  (codec.kec (strBytes e.name ++ strBytes e.fields.canonicalForm)).take 4

/-- `Error.decode_fields`: named decode of the packed field data. -/
def Error.decodeFields (codec : Codec) (e : Error)
    (dataBytes : List Nat) : Res (List (String × Value)) :=
  e.fields.decodeIntoDict codec dataBytes

/-- `PANIC_ERROR = Error("Panic", dict(code=abi.uint(256)))`. -/
def PANIC_ERROR : Error := Error.make "Panic" [("code", uint256)]

/-- `LEGACY_ERROR = Error("Error", dict(message=abi.string))`. -/
def LEGACY_ERROR : Error := Error.make "Error" [("message", stringType)]

/-- `Either`: OR-combination of candidate values for one event field. -/
inductive BoundValue where
  | single (v : Value)
  | either (vs : List Value)
deriving DecidableEq, Repr

/-- A partial binding of parameter names to values, as produced by
`inspect.Signature.bind_partial` (`bound_args.arguments`). -/
def Binding : Type := String → Option BoundValue

/-- `EventSignature`: event fields split into indexed and non-indexed
subsets.  `types` is the full ordered field mapping and `indexed` the
set of indexed names, both after keyword escaping. -/
structure EventSignature where
  types : List (String × AbiType)
  indexed : List String
deriving DecidableEq, Repr

/-- `EventSignature.__init__`: keyword-escape field and indexed names;
the indexed names form a set (duplicates collapse). -/
def EventSignature.make (parameters : List (String × AbiType))
    (indexed : List String) : EventSignature :=
  ⟨parameters.map (fun p => (makeNameSafe p.1, p.2)),
   (indexed.map makeNameSafe).dedup⟩

/-- `self._signature.parameters`: the indexed field names in declaration
order. -/
def EventSignature.indexedParams (sig : EventSignature) : List String :=
  (sig.types.filter (fun p => p.1 ∈ sig.indexed)).map Prod.fst

/-- `self._types_nonindexed`: the non-indexed fields in declaration
order. -/
def EventSignature.typesNonindexed (sig : EventSignature) :
    List (String × AbiType) :=
  sig.types.filter (fun p => p.1 ∉ sig.indexed)

/-- `self._types[name]` (the field's type; names come from the field
mapping, so the lookup cannot actually miss). -/
def EventSignature.typeOf (sig : EventSignature) (name : String) : AbiType :=
  ((dictLookup sig.types name).getD ⟨""⟩)

/-- `EventSignature.canonical_form`. -/
def EventSignature.canonicalForm (sig : EventSignature) : String :=
  "(" ++ String.intercalate ","
    ((sig.types.map Prod.snd).map AbiType.canonicalForm) ++ ")"

/-- The `while encoded_topics and encoded_topics[-1] is None:
encoded_topics.pop()` loop: remove trailing `None` entries. -/
def removeTrailingNones {α : Type} (l : List (Option α)) : List (Option α) :=
  (l.reverse.dropWhile Option.isNone).reverse

/-- `EventSignature.encode_to_topics`: encode a partial binding of the
indexed parameters as log topics, in declaration order, stripping
trailing wildcards. -/
def EventSignature.encodeToTopics (codec : Codec) (sig : EventSignature)
    (binding : Binding) : List (Option (List (List Nat))) :=
  removeTrailingNones
    (sig.indexedParams.map (fun paramName =>
      match binding paramName with
      | none => none
      | some (.either items) =>
          some (items.map (fun elem => codec.encodeToTopic (sig.typeOf paramName) elem))
      | some (.single v) =>
          some [codec.encodeToTopic (sig.typeOf paramName) v]))

/-- The `for name in self._types` merge loop of
`EventSignature.decode_log_entry`: take each field from the decoded
topics if indexed, from the decoded data section otherwise (a missing
name is a `KeyError`, as for a Python dict subscript). -/
def mergeFields (decodedTopics decodedData : List (String × Value)) :
    List String → Res (List (String × Value))
  | [] => .ok []
  | name :: rest =>
      match dictLookup decodedTopics name with
      | some v =>
          (mergeFields decodedTopics decodedData rest).bind
            (fun acc => .ok ((name, v) :: acc))
      | none =>
          match dictLookup decodedData name with
          | some v =>
              (mergeFields decodedTopics decodedData rest).bind
                (fun acc => .ok ((name, v) :: acc))
          | none => .err (.keyError name)

/-- `EventSignature.decode_log_entry`: check the topic count against the
indexed-field count, decode topics per type, decode the data section via
the non-indexed tuple, and merge by original field order. -/
def EventSignature.decodeLogEntry (codec : Codec) (sig : EventSignature)
    (topics : List (List Nat)) (data : List Nat) :
    Res (List (String × Value)) :=
  if topics.length ≠ sig.indexed.length then
    .err (.valueError
      ("The number of topics in the log entry (" ++ toString topics.length
        ++ ") does not match the number of indexed fields in the event ("
        ++ toString sig.indexed.length ++ ")"))
  else
    let decodedTopics := (sig.indexedParams.zip topics).map
      (fun p => (p.1, codec.decodeFromTopic (sig.typeOf p.1) p.2))
    liftDecode (codec.decodeArgs (sig.typesNonindexed.map Prod.snd) data)
      (fun dataTuple =>
        let decodedData := (sig.typesNonindexed.map Prod.fst).zip dataTuple
        mergeFields decodedTopics decodedData (sig.types.map Prod.fst))

/-- `Mutability` of a contract method. -/
inductive Mutability where
  | pure
  | view
  | nonpayable
  | payable
deriving DecidableEq, Repr

/-- `Mutability.from_json`. -/
def Mutability.fromJson (entry : String) : Res Mutability :=
  if entry = "pure" then .ok .pure
  else if entry = "view" then .ok .view
  else if entry = "nonpayable" then .ok .nonpayable
  else if entry = "payable" then .ok .payable
  else .err (.valueError ("Unknown mutability identifier: " ++ entry))

def Mutability.isPayable : Mutability → Bool
  | .payable => true
  | _ => false

def Mutability.isMutating : Mutability → Bool
  | .payable => true
  | .nonpayable => true
  | _ => false

/-- The shape in which a method's outputs were declared: absent, a bare
single type, a positional sequence, or a named mapping. -/
inductive OutputsDecl where
  | noneDecl
  | singleType (t : AbiType)
  | typeList (ts : List AbiType)
  | namedList (ps : List (String × AbiType))
deriving DecidableEq, Repr

/-- A contract method (`Method`). -/
structure Method where
  name : String
  inputs : Signature
  mutability : Mutability
  outputs : Signature
  singleOutput : Bool
deriving DecidableEq, Repr

/-- `Method.__init__`: a bare single type is wrapped into a one-element
list and remembered via the `_single_output` flag. -/
def Method.make (name : String) (mutability : Mutability) (inputs : Params)
    (outputs : OutputsDecl) : Method :=
  match outputs with
  | .noneDecl =>
      ⟨name, Signature.make inputs, mutability, Signature.make (.positional []), false⟩
  | .singleType t =>
      ⟨name, Signature.make inputs, mutability, Signature.make (.positional [t]), true⟩
  | .typeList ts =>
      ⟨name, Signature.make inputs, mutability, Signature.make (.positional ts), false⟩
  | .namedList ps =>
      ⟨name, Signature.make inputs, mutability, Signature.make (.named ps), false⟩

/-- What `Method.decode_output` hands back to the caller: a bare value
for a single unnamed output, the whole tuple otherwise. -/
inductive PyOutput where
  | single (v : Value)
  | tuple (vs : List Value)
deriving DecidableEq, Repr

/-- `Method.decode_output`: decode via the output signature, unwrapping
the one-tuple when the `_single_output` flag is set (`results[0]`). -/
def Method.decodeOutput (codec : Codec) (m : Method)
    (outputBytes : List Nat) : Res PyOutput :=
  (m.outputs.decodeIntoTuple codec outputBytes).bind
    (fun results =>
      if m.singleOutput then
        match results with
        | v :: _ => .ok (.single v)
        | [] => .err .indexError
      else .ok (.tuple results))

/-- A contract event (`Event`). -/
structure Event where
  name : String
  indexed : List String
  fields : EventSignature
  anonymous : Bool
deriving DecidableEq, Repr

/-- `Event.__init__`: validates the indexed-field caps before anything
else (no hashing happens here); `indexed` is a set of names. -/
def Event.make (name : String) (fields : List (String × AbiType))
    (indexed : List String) (anonymous : Bool) : Res Event :=
  if anonymous ∧ indexed.dedup.length > 4 then
    .err (.valueError "Anonymous events can have at most 4 indexed fields")
  else if ¬anonymous ∧ indexed.dedup.length > 3 then
    .err (.valueError "Non-anonymous events can have at most 3 indexed fields")
  else
    .ok ⟨name, indexed.dedup, EventSignature.make fields indexed, anonymous⟩

/-- `Event._topic`: the topic hash of the event's signature. -/
def Event.topic (codec : Codec) (e : Event) : List Nat :=
  codec.kec (strBytes e.name ++ strBytes e.fields.canonicalForm)

/-- `EventFilter`: ordered optional topic-alternative sets. -/
structure EventFilter where
  topics : List (Option (List (List Nat)))
deriving DecidableEq, Repr

/-- `LogTopic(elem)`: the entity wrapper around topic bytes (carries the
bytes unchanged). -/
def logTopicOfBytes (b : List Nat) : List Nat := b

/-- `Event.__call__`: build an `EventFilter`; non-anonymous events
prepend the singleton signature topic. -/
def Event.call (codec : Codec) (e : Event) (binding : Binding) : EventFilter :=
  let encodedTopics := e.fields.encodeToTopics codec binding
  ⟨(if ¬e.anonymous then [some [logTopicOfBytes (e.topic codec)]] else [])
    ++ encodedTopics.map (Option.map (fun tup => tup.map logTopicOfBytes))⟩

/-- A log entry: ordered topics plus the data section. -/
structure LogEntry where
  topics : List (List Nat)
  data : List Nat
deriving DecidableEq, Repr

/-- `Event.decode_log_entry`: non-anonymous events read `topics[0]`
(an index access, which on an empty topic list is out of range), compare
it against the expected signature topic and strip it; then delegate. -/
def Event.decodeLogEntry (codec : Codec) (e : Event) (logEntry : LogEntry) :
    Res (List (String × Value)) :=
  if ¬e.anonymous then
    match logEntry.topics with
    | [] => .err .indexError
    | t0 :: rest =>
        if t0 ≠ e.topic codec then
          .err (.valueError "This log entry belongs to a different event")
        else e.fields.decodeLogEntry codec rest logEntry.data
  else
    e.fields.decodeLogEntry codec logEntry.topics logEntry.data

/-- A contract constructor (`Constructor`). -/
structure Constructor where
  inputs : Signature
  payable : Bool
deriving DecidableEq, Repr

def Constructor.make (inputs : Params) (payable : Bool) : Constructor :=
  ⟨Signature.make inputs, payable⟩

/-- `Fallback`: payability flag only. -/
structure Fallback where
  payable : Bool
deriving DecidableEq, Repr

/-- `Receive`: payability flag only. -/
structure Receive where
  payable : Bool
deriving DecidableEq, Repr

/-- A wrapper for contract ABI (`ContractABI`): entities grouped by kind,
name-keyed collections, and the selector-to-error index built once at
construction. -/
structure ContractABI where
  ctor : Constructor
  fallback : Option Fallback
  receive : Option Receive
  methods : List (String × Method)
  events : List (String × Event)
  errors : List (String × Error)
  errorBySelector : List (List Nat × Error)
deriving DecidableEq, Repr

/-- `ContractABI.__init__`: default the constructor when absent, key the
methods/events/errors by name, and build the selector index over the two
built-in errors followed by the declared ones. -/
def mkContractABI (codec : Codec) (ctorOpt : Option Constructor)
    (fallback : Option Fallback) (receive : Option Receive)
    (methods : List Method) (events : List Event) (errors : List Error) :
    ContractABI :=
  let errorDict := dictOfList (errors.map (fun e => (e.name, e)))
  { ctor := ctorOpt.getD (Constructor.make (.positional []) false)
    fallback := fallback
    receive := receive
    methods := dictOfList (methods.map (fun m => (m.name, m)))
    events := dictOfList (events.map (fun e => (e.name, e)))
    errors := errorDict
    errorBySelector := dictOfList
      (([PANIC_ERROR, LEGACY_ERROR] ++ errorDict.map Prod.snd).map
        (fun e => (e.selector codec, e))) }

/-- `ContractABI.resolve_error`: require at least 4 bytes, split into
selector and data, look the selector up in the index, decode on a hit,
fail with `UnknownError` carrying the raw selector on a miss. -/
def ContractABI.resolveError (codec : Codec) (abi : ContractABI)
    (errorData : List Nat) : Res (Error × List (String × Value)) :=
  if errorData.length < 4 then
    .err (.valueError "Error data too short to contain a selector")
  else
    let selector := errorData.take 4
    let data := errorData.drop 4
    match dictLookup abi.errorBySelector selector with
    | some e => (e.decodeFields codec data).bind (fun decoded => .ok (e, decoded))
    | none => .err (.unknownError selector)

/-- A parameter record of a JSON ABI entry (`name`, `type` components,
`indexed`).  The opaque type descriptor that the external
`dispatch_type` would produce for the `type`/`components` fields is
carried directly. -/
structure JsonParam where
  name : String
  ty : AbiType
  indexed : Bool
deriving DecidableEq, Repr

/-- Modelled from the spec: `dispatch_types` (external codec module, not
part of the verified core) turns a parameter list into a named mapping
when all parameters are named and into a bare positional type list when
all are anonymous; mixed naming fails fast. -/
def dispatchTypes (entries : List JsonParam) : Res Params :=
  if entries.all (fun e => e.name ≠ "") then
    .ok (.named (entries.map (fun e => (e.name, e.ty))))
  else if entries.all (fun e => e.name = "") then
    .ok (.positional (entries.map JsonParam.ty))
  else
    .err (.valueError "Mixed named and anonymous parameters")

/-- A JSON ABI entry: a mapping with a `type` tag plus kind-specific
optional fields (an absent field makes a subscript access fail with a
`KeyError`). -/
structure JsonEntry where
  type : String
  name : Option String
  inputs : Option (List JsonParam)
  outputs : Option (List JsonParam)
  stateMutability : Option String
  anonymous : Option Bool
deriving DecidableEq, Repr

/-- `Constructor.from_json`. -/
def Constructor.fromJson (entry : JsonEntry) : Res Constructor :=
  if entry.type ≠ "constructor" then
    .err (.valueError
      "Constructor object must be created from a JSON entry with type='constructor'")
  else if entry.name.isSome then
    .err (.valueError "Constructor's JSON entry cannot have a `name`")
  else if (entry.outputs.getD []).length ≠ 0 then
    .err (.valueError "Constructor's JSON entry cannot have non-empty `outputs`")
  else
    match entry.stateMutability with
    | none => .err (.keyError "stateMutability")
    | some sm =>
        if sm ≠ "nonpayable" ∧ sm ≠ "payable" then
          .err (.valueError
            "Constructor's JSON entry state mutability must be `nonpayable` or `payable`")
        else
          (dispatchTypes (entry.inputs.getD [])).bind
            (fun inputs => .ok (Constructor.make inputs (sm = "payable")))

/-- `Method.from_json`: outputs may be entirely anonymous (a positional
list) or entirely named; an absent `outputs` key means no outputs. -/
def Method.fromJson (entry : JsonEntry) : Res Method :=
  if entry.type ≠ "function" then
    .err (.valueError
      "Method object must be created from a JSON entry with type='function'")
  else
    match entry.name with
    | none => .err (.keyError "name")
    | some name =>
        match entry.inputs with
        | none => .err (.keyError "inputs")
        | some inputEntries =>
            (dispatchTypes inputEntries).bind (fun inputs =>
              match entry.stateMutability with
              | none => .err (.keyError "stateMutability")
              | some sm =>
                  (Mutability.fromJson sm).bind (fun mutability =>
                    let outputsRes : Res OutputsDecl :=
                      match entry.outputs with
                      | none => .ok .noneDecl
                      | some outs =>
                          if outs.all (fun o => o.name = "") then
                            .ok (.typeList (outs.map JsonParam.ty))
                          else
                            (dispatchTypes outs).bind (fun ps =>
                              match ps with
                              | .named named => .ok (.namedList named)
                              | .positional ts => .ok (.typeList ts))
                    outputsRes.bind (fun outputs =>
                      .ok (Method.make name mutability inputs outputs))))

/-- `Event.from_json`. -/
def Event.fromJson (entry : JsonEntry) : Res Event :=
  if entry.type ≠ "event" then
    .err (.valueError
      "Event object must be created from a JSON entry with type='event'")
  else
    match entry.name with
    | none => .err (.keyError "name")
    | some name =>
        match entry.inputs with
        | none => .err (.keyError "inputs")
        | some inputEntries =>
            (dispatchTypes inputEntries).bind (fun fields =>
              match fields with
              | .positional _ => .err (.valueError "Event fields must be named")
              | .named named =>
                  match entry.anonymous with
                  | none => .err (.keyError "anonymous")
                  | some anonymous =>
                      Event.make name named
                        ((inputEntries.filter JsonParam.indexed).map JsonParam.name)
                        anonymous)

/-- `Error.from_json`. -/
def Error.fromJson (entry : JsonEntry) : Res Error :=
  if entry.type ≠ "error" then
    .err (.valueError
      "Error object must be created from a JSON entry with type='error'")
  else
    match entry.name with
    | none => .err (.keyError "name")
    | some name =>
        match entry.inputs with
        | none => .err (.keyError "inputs")
        | some inputEntries =>
            (dispatchTypes inputEntries).bind (fun fields =>
              match fields with
              | .positional _ => .err (.valueError "Error fields must be named")
              | .named named => .ok ⟨name, Signature.make (.named named)⟩)

/-- `Fallback.from_json`. -/
def Fallback.fromJson (entry : JsonEntry) : Res Fallback :=
  if entry.type ≠ "fallback" then
    .err (.valueError
      "Fallback object must be created from a JSON entry with type='fallback'")
  else
    match entry.stateMutability with
    | none => .err (.keyError "stateMutability")
    | some sm =>
        if sm ≠ "nonpayable" ∧ sm ≠ "payable" then
          .err (.valueError
            "Fallback method's JSON entry state mutability must be `nonpayable` or `payable`")
        else .ok ⟨sm = "payable"⟩

/-- `Receive.from_json`. -/
def Receive.fromJson (entry : JsonEntry) : Res Receive :=
  if entry.type ≠ "receive" then
    .err (.valueError
      "Receive object must be created from a JSON entry with type='fallback'")
  else
    match entry.stateMutability with
    | none => .err (.keyError "stateMutability")
    | some sm =>
        if sm ≠ "nonpayable" ∧ sm ≠ "payable" then
          .err (.valueError
            "Receive method's JSON entry state mutability must be `nonpayable` or `payable`")
        else .ok ⟨sm = "payable"⟩

/-- Accumulator of the single-pass classification loop of
`ContractABI.from_json`. -/
structure ParseState where
  ctor : Option Constructor
  fallback : Option Fallback
  receive : Option Receive
  methods : List (String × Method)
  events : List (String × Event)
  errors : List (String × Error)
deriving DecidableEq, Repr

def ParseState.init : ParseState := ⟨none, none, none, [], [], []⟩

/-- One iteration of the `for entry in json_abi` loop of
`ContractABI.from_json`. -/
def parseStep (st : ParseState) (entry : JsonEntry) : Res ParseState :=
  if entry.type = "constructor" then
    if st.ctor.isSome then
      .err (.valueError "JSON ABI contains more than one constructor declarations")
    else
      (Constructor.fromJson entry).bind (fun c => .ok { st with ctor := some c })
  else if entry.type = "function" then
    match entry.name with
    | none => .err (.keyError "name")
    | some name =>
        if (dictLookup st.methods name).isSome then
          .err (.valueError
            ("JSON ABI contains more than one declarations of `" ++ name ++ "`"))
        else
          (Method.fromJson entry).bind (fun m =>
            .ok { st with methods := dictInsert st.methods name m })
  else if entry.type = "fallback" then
    if st.fallback.isSome then
      .err (.valueError "JSON ABI contains more than one fallback declarations")
    else
      (Fallback.fromJson entry).bind (fun f => .ok { st with fallback := some f })
  else if entry.type = "receive" then
    if st.receive.isSome then
      .err (.valueError "JSON ABI contains more than one receive method declarations")
    else
      (Receive.fromJson entry).bind (fun r => .ok { st with receive := some r })
  else if entry.type = "event" then
    match entry.name with
    | none => .err (.keyError "name")
    | some name =>
        if (dictLookup st.events name).isSome then
          .err (.valueError
            ("JSON ABI contains more than one declarations of `" ++ name ++ "`"))
        else
          (Event.fromJson entry).bind (fun e =>
            .ok { st with events := dictInsert st.events name e })
  else if entry.type = "error" then
    match entry.name with
    | none => .err (.keyError "name")
    | some name =>
        if (dictLookup st.errors name).isSome then
          .err (.valueError
            ("JSON ABI contains more than one declarations of `" ++ name ++ "`"))
        else
          (Error.fromJson entry).bind (fun e =>
            .ok { st with errors := dictInsert st.errors name e })
  else
    .err (.valueError ("Unknown ABI entry type: " ++ entry.type))

/-- The classification loop itself. -/
def parseEntries : ParseState → List JsonEntry → Res ParseState
  | st, [] => .ok st
  | st, entry :: rest =>
      match parseStep st entry with
      | .ok st2 => parseEntries st2 rest
      | .err e => .err e

/-- `ContractABI.from_json`: classify and validate the declaration list,
then assemble the `ContractABI`. -/
def ContractABI.fromJson (codec : Codec) (jsonAbi : List JsonEntry) :
    Res ContractABI :=
  (parseEntries ParseState.init jsonAbi).bind (fun st =>
    .ok (mkContractABI codec st.ctor st.fallback st.receive
      (st.methods.map Prod.snd) (st.events.map Prod.snd)
      (st.errors.map Prod.snd)))

/-- A small concrete codec used to instantiate the abstract codec
parameter on concrete inputs (the real codec lives outside the verified
core; any codec satisfies the theorems below). -/
def toyCodec : Codec where
  kec bs := (bs ++ List.replicate 32 0).take 32
  decodeArgs ts bs := .inr (ts.map (fun _ => Value.bytes bs))
  encodeToTopic t v :=
    strBytes t.canonicalForm ++
      (match v with
       | .nat n => [n]
       | .str s => strBytes s
       | .bytes bs => bs)
  decodeFromTopic _ bs := Value.bytes bs

section Lemmas

variable {α : Type} [DecidableEq α] {β : Type}

theorem Res.bind_eq_ok {γ δ : Type} {x : Res γ} {f : γ → Res δ} {b : δ} :
    x.bind f = .ok b ↔ ∃ a, x = .ok a ∧ f a = .ok b := by
  cases x <;> simp [Res.bind]

theorem dictLookup_append (d₁ d₂ : List (α × β)) (k : α) :
    dictLookup (d₁ ++ d₂) k
      = match dictLookup d₁ k with
        | some v => some v
        | none => dictLookup d₂ k := by
  induction d₁ with
  | nil => simp [dictLookup]
  | cons p t ih =>
      by_cases h : p.1 = k
      · simp [dictLookup, h]
      · simp [dictLookup, h, ih]

theorem dictLookup_eq_none_of_any_eq_false {d : List (α × β)} {k : α}
    (h : d.any (fun p => decide (p.1 = k)) = false) : dictLookup d k = none := by
  induction d with
  | nil => simp [dictLookup]
  | cons p t ih =>
      simp only [List.any_cons, Bool.or_eq_false_iff, decide_eq_false_iff_not] at h
      simp [dictLookup, h.1, ih h.2]

theorem dictLookup_map_update (d : List (α × β)) (k k' : α) (v : β) :
    dictLookup (d.map (fun p => if p.1 = k then (k, v) else p)) k'
      = if k' = k then (dictLookup d k).map (fun _ => v)
        else dictLookup d k' := by
  induction d with
  | nil => by_cases hk : k' = k <;> simp [dictLookup, hk]
  | cons p t ih =>
      obtain ⟨pk, pv⟩ := p
      by_cases hp : pk = k
      · subst hp
        by_cases hk : k' = pk
        · subst hk
          simp [dictLookup, ih]
        · have hk' : ¬pk = k' := fun h => hk h.symm
          simp [dictLookup, hk, hk', ih]
      · by_cases hk : pk = k'
        · subst hk
          simp [dictLookup, hp]
        · have hk' : ¬k' = pk := fun h => hk h.symm
          simp [dictLookup, hp, hk, hk', ih]

theorem dictLookup_isSome_of_any_eq_true {d : List (α × β)} {k : α}
    (h : d.any (fun p => decide (p.1 = k)) = true) :
    (dictLookup d k).isSome = true := by
  induction d with
  | nil => simp at h
  | cons p t ih =>
      simp only [List.any_cons, Bool.or_eq_true, decide_eq_true_eq] at h
      by_cases hk : p.1 = k
      · simp [dictLookup, hk]
      · simp only [dictLookup, if_neg hk]
        exact ih (h.resolve_left hk)

theorem dictLookup_dictInsert (d : List (α × β)) (k k' : α) (v : β) :
    dictLookup (dictInsert d k v) k'
      = if k' = k then some v else dictLookup d k' := by
  unfold dictInsert
  cases hany : d.any (fun p => decide (p.1 = k)) with
  | true =>
      rw [if_pos rfl, dictLookup_map_update]
      by_cases hk : k' = k
      · subst hk
        have hs := dictLookup_isSome_of_any_eq_true hany
        cases hl : dictLookup d k' with
        | none => rw [hl] at hs; simp at hs
        | some w => simp
      · simp [hk]
  | false =>
      rw [if_neg (by simp [hany]), dictLookup_append]
      by_cases hk : k' = k
      · subst hk
        rw [dictLookup_eq_none_of_any_eq_false hany]
        simp [dictLookup]
      · have hk' : ¬k = k' := fun h => hk h.symm
        cases hl : dictLookup d k' with
        | none => simp [dictLookup, hk, hk']
        | some w => simp [hk]

theorem dictLookup_foldl_dictInsert (l : List (α × β)) :
    ∀ (d : List (α × β)) (k : α),
      dictLookup (l.foldl (fun acc p => dictInsert acc p.1 p.2) d) k
        = match l.reverse.find? (fun p => decide (p.1 = k)) with
          | some p => some p.2
          | none => dictLookup d k := by
  induction l with
  | nil => intro d k; simp
  | cons p t ih =>
      intro d k
      simp only [List.foldl_cons, List.reverse_cons, List.find?_append]
      rw [ih]
      cases hf : t.reverse.find? (fun p => decide (p.1 = k)) with
      | some q => simp [Option.or]
      | none =>
          simp only [Option.or]
          rw [dictLookup_dictInsert]
          by_cases hk : k = p.1
          · simp [List.find?, hk]
          · have hpk : ¬p.1 = k := fun h => hk h.symm
            simp [List.find?, hpk, hk]

theorem dictLookup_dictOfList (l : List (α × β)) (k : α) :
    dictLookup (dictOfList l) k
      = (l.reverse.find? (fun p => decide (p.1 = k))).map Prod.snd := by
  rw [dictOfList, dictLookup_foldl_dictInsert]
  cases hf : l.reverse.find? (fun p => decide (p.1 = k)) <;> simp [dictLookup]

theorem foldl_dictInsert_eq_append (l : List (α × β)) :
    ∀ d : List (α × β), (l.map Prod.fst).Nodup →
      (∀ p ∈ l, d.any (fun q => decide (q.1 = p.1)) = false) →
      l.foldl (fun acc p => dictInsert acc p.1 p.2) d = d ++ l := by
  induction l with
  | nil => intro d _ _; simp
  | cons p t ih =>
      intro d hnd hdisj
      simp only [List.foldl_cons]
      have hins : dictInsert d p.1 p.2 = d ++ [p] := by
        rw [dictInsert, if_neg (by simp [hdisj p (by simp)])]
      rw [hins]
      simp only [List.map_cons, List.nodup_cons] at hnd
      rw [ih (d ++ [p]) hnd.2]
      · simp
      · intro q hq
        simp only [List.any_append, Bool.or_eq_false_iff]
        refine ⟨hdisj q (by simp [hq]), ?_⟩
        simp only [List.any_cons, List.any_nil, Bool.or_false,
          decide_eq_false_iff_not]
        intro hqp
        exact hnd.1 (hqp ▸ (List.mem_map_of_mem Prod.fst hq))

theorem dictOfList_eq_self {l : List (α × β)} (h : (l.map Prod.fst).Nodup) :
    dictOfList l = l := by
  rw [dictOfList, foldl_dictInsert_eq_append l [] h (by intro p _; simp)]
  simp

theorem head?_dropWhile_ne {γ : Type} (p : γ → Bool) (l : List γ) (a : γ)
    (h : (l.dropWhile p).head? = some a) : p a = false := by
  induction l with
  | nil => simp [List.dropWhile] at h
  | cons x t ih =>
      rw [List.dropWhile_cons] at h
      by_cases hx : p x = true
      · rw [if_pos hx] at h
        exact ih h
      · rw [if_neg hx] at h
        simp only [List.head?_cons, Option.some.injEq] at h
        subst h
        simp only [Bool.not_eq_true] at hx
        exact hx

theorem removeTrailingNones_spec {γ : Type} (l : List (Option γ)) :
    removeTrailingNones l
        ++ List.replicate (l.length - (removeTrailingNones l).length) none = l
      ∧ (removeTrailingNones l).getLast? ≠ some none := by
  constructor
  · have hsplit := List.takeWhile_append_dropWhile Option.isNone l.reverse
    have htake : l.reverse.takeWhile Option.isNone
        = List.replicate (l.reverse.takeWhile Option.isNone).length none := by
      rw [List.eq_replicate_iff]
      refine ⟨rfl, ?_⟩
      intro b hb
      have := List.mem_takeWhile_imp hb
      exact Option.isNone_iff_eq_none.mp this
    have hlen : (removeTrailingNones l).length
        = (l.reverse.dropWhile Option.isNone).length := by
      rw [removeTrailingNones, List.length_reverse]
    calc removeTrailingNones l
          ++ List.replicate (l.length - (removeTrailingNones l).length) none
        = (l.reverse.dropWhile Option.isNone).reverse
            ++ (l.reverse.takeWhile Option.isNone).reverse := by
          rw [removeTrailingNones, htake, List.reverse_replicate]
          congr 2
          have := congrArg List.length hsplit
          simp only [List.length_append, List.length_reverse] at this ⊢
          omega
      _ = (l.reverse.takeWhile Option.isNone
            ++ l.reverse.dropWhile Option.isNone).reverse := by
          rw [List.reverse_append]
      _ = l := by rw [hsplit, List.reverse_reverse]
  · intro hlast
    rw [removeTrailingNones, List.getLast?_reverse] at hlast
    have := head?_dropWhile_ne Option.isNone l.reverse none hlast
    simp at this

theorem removeTrailingNones_all_none {γ : Type} (l : List (Option γ))
    (h : ∀ x ∈ l, x = none) : removeTrailingNones l = [] := by
  rw [removeTrailingNones]
  have : l.reverse.dropWhile Option.isNone = [] := by
    rw [List.dropWhile_eq_nil_iff]
    intro x hx
    rw [h x (List.mem_reverse.mp hx)]
    rfl
  rw [this]
  rfl

end Lemmas

/-- C5: constructing an `Event` fails with a validation error, before any
hashing occurs (`Event.make` never consults the hash function), exactly
when the indexed-field cap is violated: an anonymous event with 5
indexed fields fails while 4 succeeds, and a non-anonymous event with 4
indexed fields fails while 3 succeeds. -/
theorem c5_event_indexed_cap (name : String) (fields : List (String × AbiType))
    (i5 i4 i3 : List String)
    (h5 : i5.Nodup) (h4 : i4.Nodup) (h3 : i3.Nodup)
    (hl5 : i5.length = 5) (hl4 : i4.length = 4) (hl3 : i3.length = 3) :
    Event.make name fields i5 true
        = .err (.valueError "Anonymous events can have at most 4 indexed fields")
    ∧ (Event.make name fields i4 true).isOk = true
    ∧ Event.make name fields i4 false
        = .err (.valueError "Non-anonymous events can have at most 3 indexed fields")
    ∧ (Event.make name fields i3 false).isOk = true := by
  refine ⟨?_, ?_, ?_, ?_⟩ <;>
    simp [Event.make, Res.isOk, List.dedup_eq_self.mpr h5,
      List.dedup_eq_self.mpr h4, List.dedup_eq_self.mpr h3, hl5, hl4, hl3]

/-- C5 witness. -/
theorem c5_event_indexed_cap_witness :
    Event.make "E" [] ["a", "b", "c", "d", "e"] true
        = .err (.valueError "Anonymous events can have at most 4 indexed fields")
    ∧ (Event.make "E" [] ["a", "b", "c", "d"] true).isOk = true
    ∧ Event.make "E" [] ["a", "b", "c", "d"] false
        = .err (.valueError "Non-anonymous events can have at most 3 indexed fields")
    ∧ (Event.make "E" [] ["a", "b", "c"] false).isOk = true :=
  c5_event_indexed_cap "E" [] ["a", "b", "c", "d", "e"] ["a", "b", "c", "d"]
    ["a", "b", "c"] (by decide) (by decide) (by decide) (by decide) (by decide)
    (by decide)

/-- C6: `EventSignature.decode_log_entry` fails with a `ValueError`-class
error citing both counts whenever the number of topics differs from the
number of indexed fields, and only succeeds when the two counts are
exactly equal. -/
theorem c6_decode_log_entry_topic_count (codec : Codec)
    (sig : EventSignature) (topics : List (List Nat)) (data : List Nat) :
    (topics.length ≠ sig.indexed.length →
      sig.decodeLogEntry codec topics data
        = .err (.valueError
            ("The number of topics in the log entry (" ++ toString topics.length
              ++ ") does not match the number of indexed fields in the event ("
              ++ toString sig.indexed.length ++ ")")))
    ∧ ((sig.decodeLogEntry codec topics data).isOk = true →
        topics.length = sig.indexed.length) := by
  constructor
  · intro h
    rw [EventSignature.decodeLogEntry, if_pos h]
  · intro h
    by_contra hne
    rw [EventSignature.decodeLogEntry, if_pos hne] at h
    simp [Res.isOk] at h

/-- C6 witness. -/
theorem c6_decode_log_entry_topic_count_witness :
    EventSignature.decodeLogEntry toyCodec
        (EventSignature.make [("a", uint256)] ["a"]) [] []
      = .err (.valueError
          ("The number of topics in the log entry (0) does not match "
            ++ "the number of indexed fields in the event (1)")) := by
  have h := (c6_decode_log_entry_topic_count toyCodec
    (EventSignature.make [("a", uint256)] ["a"]) [] []).1 (by decide)
  rw [h]
  rfl

/-- C2: `ContractABI.resolve_error` on fewer than 4 bytes fails with the
length `ValueError` irrespective of the selector index; on at least 4
bytes whose selector is not a key of the index it fails with an
`UnknownError` carrying the raw selector; otherwise it splits the bytes
into selector and data and returns the matching error with the data
decoded through that error's signature. -/
theorem c2_resolve_error_cases (codec : Codec) (abi : ContractABI)
    (b : List Nat) :
    (b.length < 4 →
      abi.resolveError codec b
        = .err (.valueError "Error data too short to contain a selector"))
    ∧ (4 ≤ b.length → dictLookup abi.errorBySelector (b.take 4) = none →
        abi.resolveError codec b = .err (.unknownError (b.take 4)))
    ∧ (∀ e : Error, 4 ≤ b.length →
        dictLookup abi.errorBySelector (b.take 4) = some e →
        abi.resolveError codec b
          = (e.decodeFields codec (b.drop 4)).bind (fun d => .ok (e, d))) := by
  refine ⟨?_, ?_, ?_⟩
  · intro h
    rw [ContractABI.resolveError, if_pos h]
  · intro h hl
    rw [ContractABI.resolveError, if_neg (by omega)]
    simp only [hl]
  · intro e h hl
    rw [ContractABI.resolveError, if_neg (by omega)]
    simp only [hl]

/-- C2 witness: the three cases at concrete inputs over an empty ABI. -/
theorem c2_resolve_error_cases_witness :
    (mkContractABI toyCodec none none none [] [] []).resolveError toyCodec [1, 2]
        = .err (.valueError "Error data too short to contain a selector")
    ∧ (mkContractABI toyCodec none none none [] [] []).resolveError toyCodec
          [1, 2, 3, 4, 5]
        = .err (.unknownError [1, 2, 3, 4])
    ∧ (mkContractABI toyCodec none none none [] [] []).resolveError toyCodec
          (strBytes "Pani" ++ [7])
        = .ok (PANIC_ERROR, [("code", Value.bytes [7])]) := by
  refine ⟨?_, ?_, ?_⟩
  · exact (c2_resolve_error_cases toyCodec
      (mkContractABI toyCodec none none none [] [] []) [1, 2]).1 (by decide)
  · exact (c2_resolve_error_cases toyCodec
      (mkContractABI toyCodec none none none [] [] []) [1, 2, 3, 4, 5]).2.1
      (by decide) (by decide)
  · rw [(c2_resolve_error_cases toyCodec
      (mkContractABI toyCodec none none none [] [] [])
      (strBytes "Pani" ++ [7])).2.2 PANIC_ERROR (by decide) (by decide)]
    decide

/-- C1: every `ContractABI`'s selector index has entries for the two
built-in errors `Panic(uint256)` and `Error(string)` regardless of the
declared errors; with no declared errors the index maps their selectors
to the built-in objects themselves, and `resolve_error` on bytes whose
first 4 bytes equal the Panic selector returns `(PANIC_ERROR,
{"code": decoded uint})`.  (The hash is abstract, so the distinctness
and width of the built-in selectors, automatic for keccak, are
hypotheses.) -/
theorem c1_builtin_errors (codec : Codec) (errors : List Error)
    (hne : PANIC_ERROR.selector codec ≠ LEGACY_ERROR.selector codec)
    (h4 : (PANIC_ERROR.selector codec).length = 4)
    (data : List Nat) (v : Value)
    (hdec : codec.decodeArgs [uint256] data = .inr [v]) :
    (dictLookup (mkContractABI codec none none none [] [] errors).errorBySelector
        (PANIC_ERROR.selector codec)).isSome = true
    ∧ (dictLookup (mkContractABI codec none none none [] [] errors).errorBySelector
        (LEGACY_ERROR.selector codec)).isSome = true
    ∧ dictLookup (mkContractABI codec none none none [] [] []).errorBySelector
        (PANIC_ERROR.selector codec) = some PANIC_ERROR
    ∧ dictLookup (mkContractABI codec none none none [] [] []).errorBySelector
        (LEGACY_ERROR.selector codec) = some LEGACY_ERROR
    ∧ (mkContractABI codec none none none [] [] []).resolveError codec
        (PANIC_ERROR.selector codec ++ data)
      = .ok (PANIC_ERROR, [("code", v)]) := by
  have hidx : (mkContractABI codec none none none [] [] []).errorBySelector
      = [(PANIC_ERROR.selector codec, PANIC_ERROR),
         (LEGACY_ERROR.selector codec, LEGACY_ERROR)] := by
    simp only [mkContractABI]
    simp [dictOfList, dictInsert, hne]
  have hsomeP : ∀ k : List Nat, ∀ e : Error,
      (k, e) ∈ ([PANIC_ERROR, LEGACY_ERROR]
          ++ (dictOfList (errors.map (fun e => (e.name, e)))).map Prod.snd).map
          (fun e => (e.selector codec, e)) →
      (dictLookup (mkContractABI codec none none none [] [] errors).errorBySelector
        k).isSome = true := by
    intro k e hmem
    simp only [mkContractABI]
    rw [dictLookup_dictOfList]
    rw [Option.isSome_map']
    rw [List.find?_isSome]
    exact ⟨(k, e), List.mem_reverse.mpr hmem, by simp⟩
  refine ⟨?_, ?_, ?_, ?_, ?_⟩
  · exact hsomeP _ PANIC_ERROR (List.mem_map_of_mem _ (by simp))
  · exact hsomeP _ LEGACY_ERROR (List.mem_map_of_mem _ (by simp))
  · rw [hidx]
    simp [dictLookup]
  · rw [hidx]
    simp [dictLookup, hne]
  · rw [ContractABI.resolveError,
      if_neg (by simp only [List.length_append, h4]; omega)]
    have htake : (PANIC_ERROR.selector codec ++ data).take 4
        = PANIC_ERROR.selector codec := by
      rw [← h4, List.take_left]
    have hdrop : (PANIC_ERROR.selector codec ++ data).drop 4 = data := by
      rw [← h4, List.drop_left]
    rw [htake, hdrop, hidx]
    simp only [dictLookup, if_pos rfl]
    have hsafe : makeNameSafe "code" = "code" := by decide
    simp [Error.decodeFields, PANIC_ERROR, Error.make, Signature.decodeIntoDict,
      Signature.decodeIntoTuple, Signature.make, Signature.types,
      Signature.paramNames, liftDecode, hdec, Res.bind, hsafe]

/-- C1 witness. -/
theorem c1_builtin_errors_witness :
    (dictLookup (mkContractABI toyCodec none none none [] []
        [Error.make "Custom" [("z", stringType)]]).errorBySelector
        (PANIC_ERROR.selector toyCodec)).isSome = true
    ∧ (dictLookup (mkContractABI toyCodec none none none [] []
        [Error.make "Custom" [("z", stringType)]]).errorBySelector
        (LEGACY_ERROR.selector toyCodec)).isSome = true
    ∧ dictLookup (mkContractABI toyCodec none none none [] [] []).errorBySelector
        (PANIC_ERROR.selector toyCodec) = some PANIC_ERROR
    ∧ dictLookup (mkContractABI toyCodec none none none [] [] []).errorBySelector
        (LEGACY_ERROR.selector toyCodec) = some LEGACY_ERROR
    ∧ (mkContractABI toyCodec none none none [] [] []).resolveError toyCodec
        (PANIC_ERROR.selector toyCodec ++ [7])
      = .ok (PANIC_ERROR, [("code", Value.bytes [7])]) :=
  c1_builtin_errors toyCodec [Error.make "Custom" [("z", stringType)]]
    (by decide) (by decide) [7] (Value.bytes [7]) (by decide)

theorem mergeFields_ne_indexError (dt dd : List (String × Value)) :
    ∀ names : List String, mergeFields dt dd names ≠ .err .indexError := by
  intro names
  induction names with
  | nil => simp [mergeFields]
  | cons name rest ih =>
      rw [mergeFields]
      cases h1 : dictLookup dt name with
      | some v =>
          cases hm : mergeFields dt dd rest with
          | ok acc => simp [Res.bind]
          | err e => rw [hm] at ih; simp [Res.bind]; exact fun h => ih (by rw [h])
      | none =>
          cases h2 : dictLookup dd name with
          | some v =>
              cases hm : mergeFields dt dd rest with
              | ok acc => simp [Res.bind]
              | err e => rw [hm] at ih; simp [Res.bind]; exact fun h => ih (by rw [h])
          | none => simp

theorem eventSig_decode_ne_indexError (codec : Codec) (sig : EventSignature)
    (topics : List (List Nat)) (data : List Nat) :
    sig.decodeLogEntry codec topics data ≠ .err .indexError := by
  rw [EventSignature.decodeLogEntry]
  by_cases h : topics.length ≠ sig.indexed.length
  · rw [if_pos h]; simp
  · rw [if_neg h]
    cases hd : codec.decodeArgs (sig.typesNonindexed.map Prod.snd) data with
    | inl msg => simp [liftDecode, hd]
    | inr vs =>
        simp only [liftDecode, hd]
        exact mergeFields_ne_indexError _ _ _

/-- C10: a non-anonymous `Event.decode_log_entry` reads `topics[0]`
before any count check, so on an empty topic list it fails with the
out-of-range index access — and only then: the documented
mismatched-event and topic-count `ValueError`s are distinct failures,
raised only on a non-empty topic list. -/
theorem c10_decode_log_entry_empty_topics (codec : Codec) (e : Event)
    (entry : LogEntry) (hanon : e.anonymous = false) :
    e.decodeLogEntry codec { topics := [], data := entry.data }
        = .err .indexError
    ∧ (e.decodeLogEntry codec entry = .err .indexError ↔ entry.topics = [])
    ∧ (∀ msg, AbiFailure.indexError ≠ .valueError msg) := by
  refine ⟨?_, ?_, by intro msg h; cases h⟩
  · rw [Event.decodeLogEntry]
    simp [hanon]
  · constructor
    · intro h
      rw [Event.decodeLogEntry] at h
      simp only [hanon, Bool.false_eq_true, not_false_eq_true, if_true] at h
      cases htop : entry.topics with
      | nil => rfl
      | cons t0 rest =>
          exfalso
          rw [htop] at h
          dsimp only at h
          by_cases ht : t0 ≠ e.topic codec
          · rw [if_pos ht] at h
            simp at h
          · rw [if_neg ht] at h
            exact eventSig_decode_ne_indexError codec e.fields rest entry.data h
    · intro h
      rw [Event.decodeLogEntry]
      simp [hanon, h]

/-- C10 witness. -/
theorem c10_decode_log_entry_empty_topics_witness :
    Event.decodeLogEntry toyCodec
        ⟨"T", [], EventSignature.make [("a", uint256)] ["a"], false⟩
        { topics := [], data := [1] }
      = .err .indexError :=
  (c10_decode_log_entry_empty_topics toyCodec
    ⟨"T", [], EventSignature.make [("a", uint256)] ["a"], false⟩
    { topics := [], data := [1] } rfl).1

/-- C7: `encode_to_topics` produces, per indexed parameter in declaration
order, `None` when unbound, a one-element tuple for a single bound
value, and the tuple of all alternatives for an `Either`; the result is
that sequence with its trailing `None` entries removed (padding the
result back with `None` restores the full per-field sequence, and the
result never ends in `None`). -/
theorem c7_encode_to_topics (codec : Codec) (sig : EventSignature)
    (binding : Binding) :
    sig.encodeToTopics codec binding
        ++ List.replicate
            (sig.indexedParams.length
              - (sig.encodeToTopics codec binding).length) none
      = sig.indexedParams.map (fun paramName =>
          match binding paramName with
          | none => none
          | some (.either items) =>
              some (items.map (fun elem =>
                codec.encodeToTopic (sig.typeOf paramName) elem))
          | some (.single v) =>
              some [codec.encodeToTopic (sig.typeOf paramName) v])
    ∧ (sig.encodeToTopics codec binding).getLast? ≠ some none := by
  have h := removeTrailingNones_spec
    (sig.indexedParams.map (fun paramName =>
      match binding paramName with
      | none => none
      | some (.either items) =>
          some (items.map (fun elem =>
            codec.encodeToTopic (sig.typeOf paramName) elem))
      | some (.single v) =>
          some [codec.encodeToTopic (sig.typeOf paramName) v]))
  rw [List.length_map] at h
  exact h

/-- C7 witness: one bound and one unbound indexed field; the trailing
wildcard is stripped and the result does not end in `None`. -/
theorem c7_encode_to_topics_witness :
    (EventSignature.make [("a", uint256), ("b", uint256)]
        ["a", "b"]).encodeToTopics toyCodec
        (fun name => if name = "a" then some (.single (Value.nat 1)) else none)
      = [some [strBytes "uint256" ++ [1]]]
    ∧ ((EventSignature.make [("a", uint256), ("b", uint256)]
        ["a", "b"]).encodeToTopics toyCodec
        (fun name => if name = "a" then some (.single (Value.nat 1))
          else none)).getLast?
      ≠ some none :=
  ⟨by decide,
   (c7_encode_to_topics toyCodec
      (EventSignature.make [("a", uint256), ("b", uint256)] ["a", "b"])
      (fun name => if name = "a" then some (.single (Value.nat 1))
        else none)).2⟩

/-- C8: building a filter for a non-anonymous event prepends the
singleton signature-topic tuple ahead of the encoded indexed-field
topics (with no arguments the topic list is exactly the singleton); for
an anonymous event nothing is prepended. -/
theorem c8_event_filter_topics (codec : Codec) (e : Event)
    (binding : Binding) :
    (e.anonymous = false →
      (e.call codec binding).topics
        = some [e.topic codec] :: e.fields.encodeToTopics codec binding)
    ∧ (e.anonymous = false →
        (e.call codec (fun _ => none)).topics = [some [e.topic codec]])
    ∧ (e.anonymous = true →
        (e.call codec binding).topics
          = e.fields.encodeToTopics codec binding) := by
  have hmap : ∀ val : List (List Nat), val.map logTopicOfBytes = val := by
    intro val
    induction val with
    | nil => rfl
    | cons a b ih => simp [logTopicOfBytes, ih]
  have hid : ∀ l : List (Option (List (List Nat))),
      l.map (Option.map (fun tup => tup.map logTopicOfBytes)) = l := by
    intro l
    induction l with
    | nil => rfl
    | cons x t ih =>
        cases x <;> simp [hmap, ih]
  have hnone : e.fields.encodeToTopics codec (fun _ => none) = [] := by
    rw [EventSignature.encodeToTopics]
    apply removeTrailingNones_all_none
    intro x hx
    rw [List.mem_map] at hx
    obtain ⟨name, _, hx⟩ := hx
    exact hx.symm
  refine ⟨?_, ?_, ?_⟩
  · intro hanon
    rw [Event.call]
    simp [hanon, hid, logTopicOfBytes]
  · intro hanon
    rw [Event.call]
    simp [hanon, hid, hnone, logTopicOfBytes]
  · intro hanon
    rw [Event.call]
    simp [hanon, hid]

/-- C8 witness. -/
theorem c8_event_filter_topics_witness :
    (Event.call toyCodec
        ⟨"T", ["a"], EventSignature.make [("a", uint256)] ["a"], false⟩
        (fun _ => none)).topics
      = [some [Event.topic toyCodec
          ⟨"T", ["a"], EventSignature.make [("a", uint256)] ["a"], false⟩]] :=
  (c8_event_filter_topics toyCodec
    ⟨"T", ["a"], EventSignature.make [("a", uint256)] ["a"], false⟩
    (fun _ => none)).2.1 rfl

theorem find?_eq_some_of_unique {γ : Type} {l : List γ} {p : γ → Bool} {a : γ}
    (hmem : a ∈ l) (hpa : p a = true)
    (huniq : ∀ x ∈ l, p x = true → x = a) : l.find? p = some a := by
  cases hf : l.find? p with
  | none =>
      rw [List.find?_eq_none] at hf
      exact absurd hpa (hf a hmem)
  | some b =>
      rw [huniq b (List.mem_of_find?_eq_some hf) (List.find?_some hf)]

/-- C3 counterexample: a declared error `Panic(uint256)` whose field is
named `x` has the same selector preimage as the built-in
`PANIC_ERROR` under every hash, yet the index resolves the selector to
the declared error (the dict comprehension lets the later entry
overwrite the earlier one), not to the first-registered built-in, and
`resolve_error` decodes against the declared error's signature (field
`x`, not `code`). -/
theorem c3_counterexample :
    dictLookup (mkContractABI toyCodec none none none [] []
        [Error.make "Panic" [("x", uint256)]]).errorBySelector
        (PANIC_ERROR.selector toyCodec)
      = some (Error.make "Panic" [("x", uint256)])
    ∧ Error.make "Panic" [("x", uint256)] ≠ PANIC_ERROR
    ∧ (mkContractABI toyCodec none none none [] []
        [Error.make "Panic" [("x", uint256)]]).resolveError toyCodec
        (PANIC_ERROR.selector toyCodec ++ [9])
      = .ok (Error.make "Panic" [("x", uint256)], [("x", Value.bytes [9])]) := by
  refine ⟨by decide, by decide, by decide⟩

/-- C3 amended: when a declared error's selector collides with a
built-in's, the dict comprehension building the selector index lets the
later registration overwrite the earlier one, so the index resolves the
selector to the last-registered error — the declared one — and
`resolve_error` decodes against the declared error's signature. -/
theorem c3_collision_last_registered_wins (codec : Codec)
    (errors : List Error) (e : Error)
    (hnames : (errors.map Error.name).Nodup)
    (hmem : e ∈ errors)
    (hsel : e.selector codec = PANIC_ERROR.selector codec)
    (huniq : ∀ x ∈ errors, x.selector codec = PANIC_ERROR.selector codec → x = e)
    (h4 : (PANIC_ERROR.selector codec).length = 4)
    (data : List Nat) :
    dictLookup (mkContractABI codec none none none [] [] errors).errorBySelector
        (PANIC_ERROR.selector codec)
      = some e
    ∧ (mkContractABI codec none none none [] [] errors).resolveError codec
        (PANIC_ERROR.selector codec ++ data)
      = (e.decodeFields codec data).bind (fun d => .ok (e, d)) := by
  have herr : (dictOfList (errors.map (fun x => (x.name, x)))).map Prod.snd
      = errors := by
    rw [dictOfList_eq_self]
    · rw [List.map_map]
      have hc : (Prod.snd ∘ fun x : Error => (x.name, x)) = fun x => x := by
        funext x; rfl
      rw [hc]
      exact List.map_id' errors
    · simpa [List.map_map, Function.comp] using hnames
  have hlook : dictLookup
      (mkContractABI codec none none none [] [] errors).errorBySelector
      (PANIC_ERROR.selector codec) = some e := by
    simp only [mkContractABI]
    rw [herr, dictLookup_dictOfList]
    rw [← List.map_reverse, List.find?_map]
    have hrev : ([PANIC_ERROR, LEGACY_ERROR] ++ errors).reverse
        = errors.reverse ++ [LEGACY_ERROR, PANIC_ERROR] := by
      rw [List.reverse_append]
      rfl
    rw [hrev, List.find?_append]
    have h1 : errors.reverse.find?
        ((fun p : List Nat × Error => decide (p.1 = PANIC_ERROR.selector codec))
          ∘ fun x => (x.selector codec, x)) = some e := by
      apply find?_eq_some_of_unique
      · exact List.mem_reverse.mpr hmem
      · simp [Function.comp, hsel]
      · intro x hx hpx
        simp only [Function.comp, decide_eq_true_eq] at hpx
        exact huniq x (List.mem_reverse.mp hx) hpx
    rw [h1]
    rfl
  refine ⟨hlook, ?_⟩
  rw [ContractABI.resolveError,
    if_neg (by simp only [List.length_append, h4]; omega)]
  have htake : (PANIC_ERROR.selector codec ++ data).take 4
      = PANIC_ERROR.selector codec := by
    rw [← h4, List.take_left]
  have hdrop : (PANIC_ERROR.selector codec ++ data).drop 4 = data := by
    rw [← h4, List.drop_left]
  rw [htake, hdrop]
  simp only [hlook]

/-- C3 amended witness. -/
theorem c3_collision_last_registered_wins_witness :
    dictLookup (mkContractABI toyCodec none none none [] []
        [Error.make "Panic" [("x", uint256)]]).errorBySelector
        (PANIC_ERROR.selector toyCodec)
      = some (Error.make "Panic" [("x", uint256)])
    ∧ (mkContractABI toyCodec none none none [] []
        [Error.make "Panic" [("x", uint256)]]).resolveError toyCodec
        (PANIC_ERROR.selector toyCodec ++ [9])
      = ((Error.make "Panic" [("x", uint256)]).decodeFields toyCodec [9]).bind
          (fun d => .ok (Error.make "Panic" [("x", uint256)], d)) :=
  c3_collision_last_registered_wins toyCodec
    [Error.make "Panic" [("x", uint256)]] (Error.make "Panic" [("x", uint256)])
    (by decide) (by decide) (by decide) (by decide) (by decide) [9]

/-- C4 counterexample: a `Method` built by `Method.from_json` from a JSON
entry whose outputs list has exactly one entry with an empty name does
*not* unwrap: `decode_output` returns a one-element tuple, not the bare
value, because `from_json` always passes the outputs as a list, never as
a bare single type. -/
theorem c4_counterexample :
    (Method.fromJson
        ⟨"function", some "f", some [], some [⟨"", uint256, false⟩],
          some "view", none⟩).bind
        (fun m => m.decodeOutput toyCodec [1, 2])
      = .ok (.tuple [Value.bytes [1, 2]])
    ∧ Res.ok (PyOutput.tuple [Value.bytes [1, 2]])
        ≠ .ok (.single (Value.bytes [1, 2])) := by
  refine ⟨by decide, by decide⟩

/-- C4 amended: `decode_output` unwraps the decoded one-tuple into a bare
value exactly when the method was constructed with its outputs given as
a bare single type; outputs declared as a type list (even of length one,
names empty) or as a named mapping are returned as the full tuple, and
`Method.from_json` always produces the latter shapes (its
`_single_output` flag is always false), so a JSON entry with exactly one
unnamed output yields a method returning a one-element tuple. -/
theorem c4_decode_output_unwrap (codec : Codec) :
    (∀ (name : String) (mu : Mutability) (ins : Params) (t : AbiType)
        (bs : List Nat) (v : Value) (rest : List Value),
        codec.decodeArgs [t] bs = .inr (v :: rest) →
        (Method.make name mu ins (.singleType t)).decodeOutput codec bs
          = .ok (.single v))
    ∧ (∀ (name : String) (mu : Mutability) (ins : Params)
        (ts : List AbiType) (bs : List Nat) (vs : List Value),
        codec.decodeArgs ts bs = .inr vs →
        (Method.make name mu ins (.typeList ts)).decodeOutput codec bs
          = .ok (.tuple vs))
    ∧ (∀ (name : String) (mu : Mutability) (ins : Params)
        (ps : List (String × AbiType)) (bs : List Nat) (vs : List Value),
        codec.decodeArgs (ps.map Prod.snd) bs = .inr vs →
        (Method.make name mu ins (.namedList ps)).decodeOutput codec bs
          = .ok (.tuple vs))
    ∧ (∀ (entry : JsonEntry) (m : Method),
        Method.fromJson entry = .ok m → m.singleOutput = false) := by
  have htypes : ∀ ps : List (String × AbiType),
      (Signature.make (.named ps)).types = ps.map Prod.snd := by
    intro ps
    dsimp only [Signature.make, Signature.types]
    rw [List.map_map]
    rfl
  refine ⟨?_, ?_, ?_, ?_⟩
  · intro name mu ins t bs v rest hdec
    simp [Method.make, Method.decodeOutput, Signature.decodeIntoTuple,
      Signature.make, Signature.types, liftDecode, hdec, Res.bind]
  · intro name mu ins ts bs vs hdec
    simp [Method.make, Method.decodeOutput, Signature.decodeIntoTuple,
      Signature.make, Signature.types, liftDecode, hdec, Res.bind]
  · intro name mu ins ps bs vs hdec
    simp [Method.make, Method.decodeOutput, Signature.decodeIntoTuple,
      htypes, liftDecode, hdec, Res.bind]
  · intro entry m h
    rw [Method.fromJson] at h
    split at h
    · cases h
    · split at h
      · cases h
      · split at h
        · cases h
        · rw [Res.bind_eq_ok] at h
          obtain ⟨inputs, _, h⟩ := h
          split at h
          · cases h
          · rw [Res.bind_eq_ok] at h
            obtain ⟨mutability, _, h⟩ := h
            rw [Res.bind_eq_ok] at h
            obtain ⟨outputs, hout, h⟩ := h
            cases h
            split at hout
            · cases hout
              simp [Method.make]
            · split at hout
              · cases hout
                simp [Method.make]
              · rw [Res.bind_eq_ok] at hout
                obtain ⟨ps, _, hout⟩ := hout
                split at hout <;>
                  (cases hout; simp [Method.make])

/-- C4 amended witness. -/
theorem c4_decode_output_unwrap_witness :
    (Method.make "f" .view (.positional []) (.singleType uint256)).decodeOutput
        toyCodec [3] = .ok (.single (Value.bytes [3]))
    ∧ (Method.make "g" .view (.positional []) (.typeList [uint256])).decodeOutput
        toyCodec [3] = .ok (.tuple [Value.bytes [3]]) :=
  ⟨(c4_decode_output_unwrap toyCodec).1 "f" .view (.positional []) uint256 [3]
      (Value.bytes [3]) [] (by decide),
   (c4_decode_output_unwrap toyCodec).2.1 "g" .view (.positional []) [uint256]
      [3] [Value.bytes [3]] (by decide)⟩

theorem parseStep_preserves_ctor {st st2 : ParseState} {entry : JsonEntry}
    (hne : entry.type ≠ "constructor")
    (h : parseStep st entry = .ok st2) : st2.ctor = st.ctor := by
  rw [parseStep, if_neg hne] at h
  split at h
  · split at h
    · cases h
    · split at h
      · cases h
      · rw [Res.bind_eq_ok] at h
        obtain ⟨m, _, h⟩ := h
        cases h
        rfl
  · split at h
    · split at h
      · cases h
      · rw [Res.bind_eq_ok] at h
        obtain ⟨f, _, h⟩ := h
        cases h
        rfl
    · split at h
      · split at h
        · cases h
        · rw [Res.bind_eq_ok] at h
          obtain ⟨r, _, h⟩ := h
          cases h
          rfl
      · split at h
        · split at h
          · cases h
          · split at h
            · cases h
            · rw [Res.bind_eq_ok] at h
              obtain ⟨ev, _, h⟩ := h
              cases h
              rfl
        · split at h
          · split at h
            · cases h
            · split at h
              · cases h
              · rw [Res.bind_eq_ok] at h
                obtain ⟨er, _, h⟩ := h
                cases h
                rfl
          · cases h

theorem parseEntries_preserves_ctor :
    ∀ (entries : List JsonEntry) (st st' : ParseState),
      (∀ e ∈ entries, e.type ≠ "constructor") →
      parseEntries st entries = .ok st' → st'.ctor = st.ctor := by
  intro entries
  induction entries with
  | nil =>
      intro st st' _ h
      rw [parseEntries] at h
      cases h
      rfl
  | cons e rest ih =>
      intro st st' hne h
      rw [parseEntries] at h
      cases hs : parseStep st e with
      | err f => rw [hs] at h; cases h
      | ok st2 =>
          rw [hs] at h
          have h2 : st2.ctor = st.ctor :=
            parseStep_preserves_ctor (hne e (List.mem_cons_self e rest)) hs
          rw [← h2]
          exact ih st2 st' (fun x hx => hne x (List.mem_cons_of_mem e hx)) h

/-- C9: `ContractABI.from_json` on a declaration list with two
constructor entries fails with the duplicate-declaration error, and on a
list with no constructor entries yields an ABI whose constructor is the
default no-argument, non-payable one. -/
theorem c9_constructor_rules (codec : Codec) :
    (∀ (e1 e2 : JsonEntry) (c : Constructor),
        e1.type = "constructor" → e2.type = "constructor" →
        Constructor.fromJson e1 = .ok c →
        ContractABI.fromJson codec [e1, e2]
          = .err (.valueError
              "JSON ABI contains more than one constructor declarations"))
    ∧ (∀ (entries : List JsonEntry) (abi : ContractABI),
        (∀ e ∈ entries, e.type ≠ "constructor") →
        ContractABI.fromJson codec entries = .ok abi →
        abi.ctor = Constructor.make (.positional []) false) := by
  constructor
  · intro e1 e2 c h1 h2 hc
    have hs1 : parseStep ParseState.init e1
        = .ok { ParseState.init with ctor := some c } := by
      rw [parseStep, if_pos h1]
      simp [ParseState.init, hc, Res.bind]
    have hs2 : parseStep { ParseState.init with ctor := some c } e2
        = .err (.valueError
            "JSON ABI contains more than one constructor declarations") := by
      rw [parseStep, if_pos h2]
      simp
    rw [ContractABI.fromJson]
    simp only [parseEntries, hs1, hs2]
    rfl
  · intro entries abi hne h
    rw [ContractABI.fromJson, Res.bind_eq_ok] at h
    obtain ⟨st, hparse, heq⟩ := h
    cases heq
    have hctor : st.ctor = none :=
      parseEntries_preserves_ctor entries ParseState.init st hne hparse
    simp [mkContractABI, hctor, Constructor.make, Signature.make]

/-- C9 witness. -/
theorem c9_constructor_rules_witness :
    ContractABI.fromJson toyCodec
        [⟨"constructor", none, some [], none, some "nonpayable", none⟩,
         ⟨"constructor", none, some [], none, some "nonpayable", none⟩]
      = .err (.valueError
          "JSON ABI contains more than one constructor declarations")
    ∧ (mkContractABI toyCodec none none none [] [] []).ctor
      = Constructor.make (.positional []) false := by
  constructor
  · exact (c9_constructor_rules toyCodec).1
      ⟨"constructor", none, some [], none, some "nonpayable", none⟩
      ⟨"constructor", none, some [], none, some "nonpayable", none⟩
      (Constructor.make (.named []) false) rfl rfl (by decide)
  · exact (c9_constructor_rules toyCodec).2 []
      (mkContractABI toyCodec none none none [] [] [])
      (by intro e he; cases he) rfl

end Pons
